import Mathlib

/-!
Shallow embedding of the Pharap/ArduinoUtilities headers.

Conventions used throughout:
* `size_t` on the AVR target is 16 bits wide; unsigned wrap-around is made
  explicit as arithmetic modulo `sizeTMod = 2^16` at exactly the places where
  the C++ code can underflow (`element_count - 1` on an empty container, the
  `index != end` loop of `CircularDeque::clear`).  Everywhere a documented
  precondition rules wrap-around out, plain `Nat` arithmetic coincides with
  `size_t` arithmetic and is used directly.
* The backing `utils::Array<Type, capacity>` of a container is embedded as a
  `List` of length `capacity`; reading slot `i` is `List.getD i default`
  (any in-bounds slot of the C++ array holds some value of the element type),
  writing slot `i` is `List.set i`.  Out-of-bounds accesses are witnessed
  either through `List.get?` (which yields `none` there) or by exhibiting the
  accessed index itself.
* Element destruction (`~value_type()`) has no effect on a value model; the
  destruction loops of `clear` are embedded as the list of physical slots the
  loop visits, so that claims about which elements get destroyed stay visible.
-/

namespace ArduinoUtilities

/-- The modulus of `size_t` arithmetic on the 8-bit AVR target (16-bit `size_t`). -/
def sizeTMod : Nat := 65536

/-- `n - 1` computed in `size_t` arithmetic: wraps to `sizeTMod - 1` at `n = 0`. -/
def sizeTPred (n : Nat) : Nat := (n + (sizeTMod - 1)) % sizeTMod

namespace containers

/-- Embedding of `containers::Deque<Type, capacity>` (Deque.h): a backing
array plus `element_count`.  The capacity is the length of `elements`. -/
structure Deque (α : Type) where
  elements : List α
  element_count : Nat
deriving Repr, DecidableEq

namespace Deque

variable {α : Type} [Inhabited α]

/-- The template parameter `capacity`, recovered as the backing array length. -/
def capacity (d : Deque α) : Nat := d.elements.length

/-- `Deque::size()`. -/
def size (d : Deque α) : Nat := d.element_count

/-- `Deque::max_size()`. -/
def max_size (d : Deque α) : Nat := d.capacity

/-- `Deque::empty()`: `element_count == 0`. -/
def isEmptyD (d : Deque α) : Bool := d.element_count == 0

/-- A default-initialised `Deque` of capacity `N`: `element_count = 0`,
backing array default-constructed. -/
def mkEmpty (α : Type) [Inhabited α] (N : Nat) : Deque α :=
  ⟨List.replicate N default, 0⟩

/-- `Deque::get_last_index()`: `element_count - 1` in `size_t` arithmetic
(wraps to `65535` on an empty deque). -/
def get_last_index (d : Deque α) : Nat := sizeTPred d.element_count

/-- The backing-array slot read by `Deque::back()`
(`elements[get_last_index()]`), as a partial access: `none` when the slot
lies outside the `capacity`-element backing array. -/
def backSlot (d : Deque α) : Option α := d.elements.get? d.get_last_index

/-- The front-to-back observable element sequence: `elements[0] .. elements[count-1]`
(iteration from `begin()` to `end()`). -/
def toList (d : Deque α) : List α :=
  (List.range d.element_count).map (fun i => d.elements.getD i default)

/-- `Deque::push_back`: `elements[element_count] = value; ++element_count`. -/
def push_back (d : Deque α) (v : α) : Deque α :=
  { elements := d.elements.set d.element_count v
    element_count := d.element_count + 1 }

/-- `Deque::pop_back`: `--element_count` then destroy `elements[element_count]`. -/
def pop_back (d : Deque α) : Deque α :=
  { d with element_count := d.element_count - 1 }

/-- The element-moving loop of `Deque::push_front`:
`for(index = element_count; index > 0; --index) elements[index] = elements[index - 1]`. -/
def push_front_shift (xs : List α) : Nat → List α
  | 0 => xs
  | k + 1 => push_front_shift (xs.set (k + 1) (xs.getD k default)) k

/-- `Deque::push_front`: shift everything up one slot, write `elements[0]`,
increment the count. -/
def push_front (d : Deque α) (v : α) : Deque α :=
  { elements := (push_front_shift d.elements d.element_count).set 0 v
    element_count := d.element_count + 1 }

/-- The element-moving loop of `Deque::pop_front`:
`for(index = 0; index < element_count; ++index) elements[index] = elements[index + 1]`. -/
def pop_front_shift (xs : List α) (count : Nat) : List α :=
  (List.range count).foldl (fun ys index => ys.set index (ys.getD (index + 1) default)) xs

/-- The backing-array indices READ by the element-moving loop of
`Deque::pop_front` (each iteration reads `elements[index + 1]`). -/
def pop_front_read_indices (count : Nat) : List Nat :=
  (List.range count).map (· + 1)

/-- `Deque::pop_front`: run the shift loop, decrement the count. -/
def pop_front (d : Deque α) : Deque α :=
  { elements := pop_front_shift d.elements d.element_count
    element_count := d.element_count - 1 }

/-- The element-moving loop of `Deque::erase` starting at iterator position `p`:
`*current = *next` for `current = p .. element_count - 2`. -/
def erase_shift (xs : List α) (p count : Nat) : List α :=
  (List.range' p (count - 1 - p)).foldl (fun ys i => ys.set i (ys.getD (i + 1) default)) xs

/-- `Deque::erase` at iterator position `p` (iterators are element pointers;
`p` is the offset from `begin()`). -/
def erase (d : Deque α) (p : Nat) : Deque α :=
  { elements := erase_shift d.elements p d.element_count
    element_count := d.element_count - 1 }

/-- `Deque::swap`: `swap(this->elements, other.elements)` — the element
counts are NOT exchanged. -/
def swap (a b : Deque α) : Deque α × Deque α :=
  ({ a with elements := b.elements }, { b with elements := a.elements })

/-- `Deque::push_back` with `CONTAINER_SAFETY` defined:
`if(this->size() >= this->max_size()) return;`. -/
def push_back_safe (d : Deque α) (v : α) : Deque α :=
  if d.size ≥ d.max_size then d else d.push_back v

/-- `Deque::push_front` with `CONTAINER_SAFETY` defined. -/
def push_front_safe (d : Deque α) (v : α) : Deque α :=
  if d.size ≥ d.max_size then d else d.push_front v

/-- `Deque::emplace_back` with `CONTAINER_SAFETY` defined (state effect of
in-place construction is that of `push_back`). -/
def emplace_back_safe (d : Deque α) (v : α) : Deque α :=
  if d.size ≥ d.max_size then d else d.push_back v

/-- `Deque::emplace_front` with `CONTAINER_SAFETY` defined. -/
def emplace_front_safe (d : Deque α) (v : α) : Deque α :=
  if d.size ≥ d.max_size then d else d.push_front v

/-- `Deque::pop_back` with `CONTAINER_SAFETY` defined:
`if(this->empty()) return;`. -/
def pop_back_safe (d : Deque α) : Deque α :=
  if d.isEmptyD then d else d.pop_back

/-- `Deque::pop_front` with `CONTAINER_SAFETY` defined. -/
def pop_front_safe (d : Deque α) : Deque α :=
  if d.isEmptyD then d else d.pop_front

/-- `Deque::erase` with `CONTAINER_SAFETY` defined: exits on an empty deque
and on the past-the-end iterator (`p = element_count`). -/
def erase_safe (d : Deque α) (p : Nat) : Deque α :=
  if d.isEmptyD then d else if p = d.element_count then d else d.erase p

end Deque

/-- Embedding of `containers::CircularDeque<Type, capacity>`
(CircularDeque.h): backing array, `element_count` and `first_index`. -/
structure CircularDeque (α : Type) where
  elements : List α
  element_count : Nat
  first_index : Nat
deriving Repr, DecidableEq

namespace CircularDeque

variable {α : Type} [Inhabited α]

/-- The template parameter `capacity`, recovered as the backing array length. -/
def capacity (d : CircularDeque α) : Nat := d.elements.length

/-- `CircularDeque::size()`. -/
def size (d : CircularDeque α) : Nat := d.element_count

/-- `CircularDeque::max_size()`. -/
def max_size (d : CircularDeque α) : Nat := d.capacity

/-- `CircularDeque::empty()`. -/
def isEmptyCD (d : CircularDeque α) : Bool := d.element_count == 0

/-- A default-initialised `CircularDeque` of capacity `N`:
`element_count = 0`, `first_index = 0`. -/
def mkEmpty (α : Type) [Inhabited α] (N : Nat) : CircularDeque α :=
  ⟨List.replicate N default, 0, 0⟩

/-- `CircularDeque::adjust_index`: `(first_index + index) % capacity`. -/
def adjust_index (d : CircularDeque α) (index : Nat) : Nat :=
  (d.first_index + index) % d.capacity

/-- `CircularDeque::get_end_index`: `adjust_index(element_count)`. -/
def get_end_index (d : CircularDeque α) : Nat := d.adjust_index d.element_count

/-- `CircularDeque::get_previous_index`: `(index + (capacity - 1)) % capacity`. -/
def get_previous_index (d : CircularDeque α) (index : Nat) : Nat :=
  (index + (d.capacity - 1)) % d.capacity

/-- The physical backing-array slot that `CircularDeque::data()` points to:
`&elements[0]`, i.e. offset `0` into the backing array, always. -/
def dataIndex (_d : CircularDeque α) : Nat := 0

/-- The physical backing-array slot of `CircularDeque::front()`:
`elements[get_first_index()]`, i.e. offset `first_index`. -/
def frontIndex (d : CircularDeque α) : Nat := d.first_index

/-- The front-to-back observable element sequence: logical index `i` reads
physical slot `adjust_index(i)` (this is what the `IndexIterator` returned by
`begin()`/`end()` yields via `operator[]`). -/
def toList (d : CircularDeque α) : List α :=
  (List.range d.element_count).map (fun i => d.elements.getD (d.adjust_index i) default)

/-- `CircularDeque::push_back`: write `elements[get_end_index()]`,
increment the count. -/
def push_back (d : CircularDeque α) (v : α) : CircularDeque α :=
  { d with
    elements := d.elements.set d.get_end_index v
    element_count := d.element_count + 1 }

/-- `CircularDeque::push_front`: step `first_index` back one slot (mod
`capacity`), write it, increment the count. -/
def push_front (d : CircularDeque α) (v : α) : CircularDeque α :=
  { d with
    first_index := d.get_previous_index d.first_index
    elements := d.elements.set (d.get_previous_index d.first_index) v
    element_count := d.element_count + 1 }

/-- `CircularDeque::pop_back`: destroy `elements[get_last_index()]`,
decrement the count. -/
def pop_back (d : CircularDeque α) : CircularDeque α :=
  { d with element_count := d.element_count - 1 }

/-- `CircularDeque::pop_front`: destroy `elements[first_index]`, advance
`first_index` one slot (mod `capacity`), decrement the count. -/
def pop_front (d : CircularDeque α) : CircularDeque α :=
  { d with
    first_index := (d.first_index + 1) % d.capacity
    element_count := d.element_count - 1 }

/-- The `size_t` values taken by the loop variable of `CircularDeque::clear`
(`for(index = get_begin_index(); index != get_end_index(); ++index)`):
the loop counts up from `first_index` with 16-bit wrap-around until it hits
`get_end_index()`. -/
def clear_loop_indices (d : CircularDeque α) : List Nat :=
  if d.first_index ≤ d.get_end_index then
    List.range' d.first_index (d.get_end_index - d.first_index)
  else
    List.range' d.first_index (sizeTMod - d.first_index) ++ List.range' 0 d.get_end_index

/-- The physical backing-array slots destroyed by `CircularDeque::clear`
(the loop destroys `elements[adjust_index(index)]` for each loop value). -/
def clear_destroyed_slots (d : CircularDeque α) : List Nat :=
  d.clear_loop_indices.map d.adjust_index

/-- The physical slots of the live elements in logical (front-to-back)
order: `adjust_index(i)` for `i < element_count`. -/
def live_slots (d : CircularDeque α) : List Nat :=
  (List.range d.element_count).map d.adjust_index

/-- The state left behind by `CircularDeque::clear`: `element_count = 0`,
`first_index = 0` (destruction does not alter stored values). -/
def clear (d : CircularDeque α) : CircularDeque α :=
  { d with element_count := 0, first_index := 0 }

/-- `CircularDeque::swap`: `swap(this->elements, other.elements)` — neither
`element_count` nor `first_index` is exchanged. -/
def swap (a b : CircularDeque α) : CircularDeque α × CircularDeque α :=
  ({ a with elements := b.elements }, { b with elements := a.elements })

/-- `CircularDeque::push_back` with `CONTAINER_SAFETY` defined. -/
def push_back_safe (d : CircularDeque α) (v : α) : CircularDeque α :=
  if d.size ≥ d.max_size then d else d.push_back v

/-- `CircularDeque::push_front` with `CONTAINER_SAFETY` defined. -/
def push_front_safe (d : CircularDeque α) (v : α) : CircularDeque α :=
  if d.size ≥ d.max_size then d else d.push_front v

/-- `CircularDeque::pop_back` with `CONTAINER_SAFETY` defined. -/
def pop_back_safe (d : CircularDeque α) : CircularDeque α :=
  if d.isEmptyCD then d else d.pop_back

/-- `CircularDeque::pop_front` with `CONTAINER_SAFETY` defined. -/
def pop_front_safe (d : CircularDeque α) : CircularDeque α :=
  if d.isEmptyCD then d else d.pop_front

/-- `CircularDeque::emplace_back` with `CONTAINER_SAFETY` defined (state
effect of in-place construction is that of `push_back`). -/
def emplace_back_safe (d : CircularDeque α) (v : α) : CircularDeque α :=
  if d.size ≥ d.max_size then d else d.push_back v

/-- `CircularDeque::emplace_front` with `CONTAINER_SAFETY` defined. -/
def emplace_front_safe (d : CircularDeque α) (v : α) : CircularDeque α :=
  if d.size ≥ d.max_size then d else d.push_front v

/-- `CircularDeque::erase` at logical iterator position `p` (iterators are
index-based; `p` is the logical index).  The element-moving loop runs
`*current = *next` — i.e. `elements[adjust_index(current)] =
elements[adjust_index(next)]` — for `current = p .. element_count - 2`,
then decrements the count. -/
def erase (d : CircularDeque α) (p : Nat) : CircularDeque α :=
  { d with
    elements := (List.range' p (d.element_count - 1 - p)).foldl
      (fun ys i => ys.set (d.adjust_index i) (ys.getD (d.adjust_index (i + 1)) default))
      d.elements
    element_count := d.element_count - 1 }

/-- `CircularDeque::erase` with `CONTAINER_SAFETY` defined: exits on an
empty deque and on the past-the-end iterator (logical index
`p = element_count`). -/
def erase_safe (d : CircularDeque α) (p : Nat) : CircularDeque α :=
  if d.isEmptyCD then d else if p = d.element_count then d else d.erase p

/-- Fold `push_back` over a list of values (pushing left to right). -/
def push_back_list (d : CircularDeque α) (vs : List α) : CircularDeque α :=
  vs.foldl push_back d

/-- Fold `push_front` over a list of values (pushing left to right). -/
def push_front_list (d : CircularDeque α) (vs : List α) : CircularDeque α :=
  vs.foldl push_front d

end CircularDeque

/-- Embedding of `containers::Stack<Type, capacity, Container = Deque>`
(Stack.h): a façade over the wrapped container. -/
structure Stack (α : Type) where
  container : Deque α
deriving Repr, DecidableEq

namespace Stack

variable {α : Type} [Inhabited α]

/-- `Stack::push`: forwards to `container.push_back`. -/
def push (s : Stack α) (v : α) : Stack α := ⟨s.container.push_back v⟩

/-- `Stack::pop`: forwards to `container.pop_back`. -/
def pop (s : Stack α) : Stack α := ⟨s.container.pop_back⟩

/-- `Stack::size`: forwards to `container.size`. -/
def size (s : Stack α) : Nat := s.container.size

end Stack

/-- Embedding of `containers::Queue<Type, capacity, Container = Deque>`
(Queue.h): a façade over the wrapped container. -/
structure Queue (α : Type) where
  container : Deque α
deriving Repr, DecidableEq

namespace Queue

variable {α : Type} [Inhabited α]

/-- `Queue::push`: forwards to `container.push_back`. -/
def push (q : Queue α) (v : α) : Queue α := ⟨q.container.push_back v⟩

/-- `Queue::pop`: forwards to `container.pop_front`. -/
def pop (q : Queue α) : Queue α := ⟨q.container.pop_front⟩

/-- `Queue::size`: forwards to `container.size`. -/
def size (q : Queue α) : Nat := q.container.size

end Queue

/-- One well-formed mutating deque operation, tagged with its documented
precondition: pushes require `size() < max_size()`, pops require
`size() > 0`.  (`front`/`back`/`operator[]` do not change container state.) -/
inductive DequeOp (α : Type) where
  | pushBack (v : α)
  | pushFront (v : α)
  | popBack
  | popFront
deriving Repr, DecidableEq

namespace Deque

variable {α : Type} [Inhabited α]

/-- Apply one operation to a `Deque`, refusing (`none`) when its documented
precondition does not hold. -/
def step (d : Deque α) : DequeOp α → Option (Deque α)
  | .pushBack v => if d.size < d.max_size then some (d.push_back v) else none
  | .pushFront v => if d.size < d.max_size then some (d.push_front v) else none
  | .popBack => if 0 < d.size then some d.pop_back else none
  | .popFront => if 0 < d.size then some d.pop_front else none

/-- Run a sequence of operations on a `Deque`, each under its documented
precondition. -/
def run (d : Deque α) : List (DequeOp α) → Option (Deque α)
  | [] => some d
  | op :: ops => (d.step op).bind (fun d2 => d2.run ops)

end Deque

namespace CircularDeque

variable {α : Type} [Inhabited α]

/-- Apply one operation to a `CircularDeque`, refusing (`none`) when its
documented precondition does not hold. -/
def step (d : CircularDeque α) : DequeOp α → Option (CircularDeque α)
  | .pushBack v => if d.size < d.max_size then some (d.push_back v) else none
  | .pushFront v => if d.size < d.max_size then some (d.push_front v) else none
  | .popBack => if 0 < d.size then some d.pop_back else none
  | .popFront => if 0 < d.size then some d.pop_front else none

/-- Run a sequence of operations on a `CircularDeque`, each under its
documented precondition. -/
def run (d : CircularDeque α) : List (DequeOp α) → Option (CircularDeque α)
  | [] => some d
  | op :: ops => (d.step op).bind (fun d2 => d2.run ops)

end CircularDeque

end containers

namespace progmem

/-- Embedding of `progmem::ProgmemArray<Type, capacity>` (ProgmemArray.h):
one raw address (the pointer to the first element); `capacity` is part of
the type. -/
structure ProgmemArray (α : Type) (capacity : Nat) where
  address : Nat
deriving Repr, DecidableEq

namespace ProgmemArray

variable {α : Type} {capacity : Nat}

/-- `ProgmemArray::size()`: returns `capacity`. -/
def size (_a : ProgmemArray α capacity) : Nat := capacity

/-- `ProgmemArray::max_size()`: returns `capacity`. -/
def max_size (_a : ProgmemArray α capacity) : Nat := capacity

/-- `ProgmemArray::empty()` as written in the source:
`return (capacity > 0);`. -/
def isEmptyPA (_a : ProgmemArray α capacity) : Bool := decide (capacity > 0)

end ProgmemArray

end progmem

namespace eeprom

/-- Embedding of `eeprom::EepromArray<Type, capacity>` (EepromArray.h):
one raw address; `capacity` is part of the type. -/
structure EepromArray (α : Type) (capacity : Nat) where
  address : Nat
deriving Repr, DecidableEq

namespace EepromArray

variable {α : Type} {capacity : Nat}

/-- `EepromArray::size()`: returns `capacity`. -/
def size (_a : EepromArray α capacity) : Nat := capacity

/-- `EepromArray::max_size()`: returns `capacity`. -/
def max_size (_a : EepromArray α capacity) : Nat := capacity

/-- `EepromArray::empty()` as written in the source:
`return (capacity > 0);`. -/
def isEmptyEA (_a : EepromArray α capacity) : Bool := decide (capacity > 0)

end EepromArray

/-- The persistent-memory byte store: one byte value per address. -/
def EepromState : Type := Nat → Nat

/-- Modelled from the spec: the platform primitive `eeprom_update_byte` of
`<avr/eeprom.h>` (not part of this repository) — §4.2: "persistent_update_byte
(addr, value): reads the byte first, writes only if different".  Returns the
new store and the number of underlying byte-writes performed (`0` or `1`). -/
def eeprom_update_byte (mem : EepromState) (addr value : Nat) : EepromState × Nat :=
  if mem addr = value then (mem, 0) else (Function.update mem addr value, 1)

/-- Modelled from the spec: the platform primitive `eeprom_update_block` —
§4.2: "persistent_update_block(dst, src, n): byte-wise update of a range".
Returns the new store and the total number of underlying byte-writes. -/
def eeprom_update_block : EepromState → Nat → List Nat → EepromState × Nat
  | mem, _, [] => (mem, 0)
  | mem, addr, b :: rest =>
    let q1 := eeprom_update_byte mem addr b
    let q2 := eeprom_update_block q1.1 (addr + 1) rest
    (q2.1, q1.2 + q2.2)

/-- Modelled from the spec: the platform primitive `eeprom_read_byte` —
§4.2: reads mirror §4.1 ("reads exactly one byte"). -/
def eeprom_read_byte (mem : EepromState) (addr : Nat) : Nat := mem addr

/-- Modelled from the spec: the platform primitive `eeprom_read_block` —
bulk copy of `len` bytes starting at `addr` out of persistent memory. -/
def eeprom_read_block (mem : EepromState) (addr len : Nat) : List Nat :=
  (List.range len).map (fun i => mem (addr + i))

/-- `eeprom::details::update_eeprom` (update_details.h): for a trivially
copyable object the byte-sized specialisation calls `eeprom_update_byte` and
the general case calls `eeprom_update_block` over the object's
`sizeof(Type)` bytes; both amount to a byte-wise update of the object's
bytes (`value` is the list of the object's bytes). -/
def update_eeprom (mem : EepromState) (addr : Nat) (value : List Nat) : EepromState × Nat :=
  eeprom_update_block mem addr value

/-- `eeprom::writeEeprom` (writeEeprom.h): forwards to
`details::update_eeprom`. -/
def writeEeprom (mem : EepromState) (addr : Nat) (value : List Nat) : EepromState × Nat :=
  update_eeprom mem addr value

/-- `eeprom::details::read_eeprom` (read_details.h): materialises the
object's `sizeof(Type)` bytes out of persistent memory. -/
def read_eeprom (mem : EepromState) (addr len : Nat) : List Nat :=
  eeprom_read_block mem addr len

/-- `eeprom::readEeprom` (readEeprom.h): forwards to
`details::read_eeprom`. -/
def readEeprom (mem : EepromState) (addr len : Nat) : List Nat :=
  read_eeprom mem addr len

/-- `eeprom::EepromReference::operator =` (EepromReference.h line 74):
`eeprom::writeEeprom(*this->pointer, value)`. -/
def erefAssign (mem : EepromState) (addr : Nat) (value : List Nat) : EepromState × Nat :=
  writeEeprom mem addr value

/-- `eeprom::EepromReference::operator value_type()` (EepromReference.h
line 122): `eeprom::readEeprom(*this->pointer)`. -/
def erefRead (mem : EepromState) (addr len : Nat) : List Nat :=
  readEeprom mem addr len

end eeprom

/-! ### General helper lemmas -/

lemma getD_set_ne {α : Type} (xs : List α) {i j : Nat} (v d : α) (h : i ≠ j) :
    (xs.set i v).getD j d = xs.getD j d := by
  simp [List.getD_eq_getElem?_getD, List.getElem?_set_ne h]

lemma getD_set_self {α : Type} (xs : List α) {i : Nat} (v d : α) (h : i < xs.length) :
    (xs.set i v).getD i d = v := by
  simp [List.getD_eq_getElem?_getD, List.getElem?_set_self h]

lemma mod_add_ne {N h i j : Nat} (hi : i < N) (hj : j < N) (hij : i ≠ j) :
    (h + i) % N ≠ (h + j) % N := by
  intro heq
  have h1 : i ≡ j [MOD N] := Nat.ModEq.add_left_cancel' h heq
  have h2 : i % N = j % N := h1
  rw [Nat.mod_eq_of_lt hi, Nat.mod_eq_of_lt hj] at h2
  exact hij h2

namespace containers

namespace CircularDeque

variable {α : Type} [Inhabited α]

lemma cd_capacity_push_back (d : CircularDeque α) (v : α) :
    (d.push_back v).capacity = d.capacity := by
  simp [push_back, capacity]

lemma cd_count_push_back (d : CircularDeque α) (v : α) :
    (d.push_back v).element_count = d.element_count + 1 := rfl

lemma cd_capacity_push_front (d : CircularDeque α) (v : α) :
    (d.push_front v).capacity = d.capacity := by
  simp [push_front, capacity]

lemma cd_count_push_front (d : CircularDeque α) (v : α) :
    (d.push_front v).element_count = d.element_count + 1 := rfl

lemma cd_toList_push_back (d : CircularDeque α) (v : α)
    (h : d.element_count < d.capacity) :
    (d.push_back v).toList = d.toList ++ [v] := by
  have hcap : 0 < d.elements.length := Nat.lt_of_le_of_lt (Nat.zero_le _) h
  have hlen : (d.elements.set d.get_end_index v).length = d.elements.length :=
    List.length_set ..
  simp only [toList, push_back, capacity, adjust_index, hlen, List.range_succ,
    List.map_append, List.map_cons, List.map_nil]
  have hE : d.get_end_index = (d.first_index + d.element_count) % d.elements.length := rfl
  have hlast :
      (d.elements.set d.get_end_index v).getD
        ((d.first_index + d.element_count) % d.elements.length) default = v := by
    rw [← hE]
    have hEb : d.get_end_index < (d.elements.set d.get_end_index v).length := by
      rw [hlen, hE]
      exact Nat.mod_lt _ hcap
    rw [hlen] at hEb
    exact getD_set_self _ v default hEb
  have hrest :
      (List.range d.element_count).map
        (fun i => (d.elements.set d.get_end_index v).getD
          ((d.first_index + i) % d.elements.length) default)
        = (List.range d.element_count).map
            (fun i => d.elements.getD ((d.first_index + i) % d.elements.length) default) := by
    refine List.map_congr_left (fun i hi => ?_)
    have hi2 : i < d.element_count := List.mem_range.mp hi
    refine getD_set_ne _ v default ?_
    rw [hE]
    exact mod_add_ne h (Nat.lt_trans hi2 h) (Nat.ne_of_gt hi2)
  rw [hlast, hrest]

lemma cd_toList_push_front (d : CircularDeque α) (v : α)
    (h : d.element_count < d.capacity) :
    (d.push_front v).toList = v :: d.toList := by
  have hcap : 0 < d.elements.length := Nat.lt_of_le_of_lt (Nat.zero_le _) h
  have hlen : (d.elements.set (d.get_previous_index d.first_index) v).length
      = d.elements.length := List.length_set ..
  have hH : d.get_previous_index d.first_index
      = (d.first_index + (d.elements.length - 1)) % d.elements.length := rfl
  have hHlt : d.get_previous_index d.first_index < d.elements.length := by
    rw [hH]; exact Nat.mod_lt _ hcap
  simp only [toList, push_front, capacity, adjust_index, hlen,
    List.range_succ_eq_map, List.map_cons, List.map_map]
  have hzero :
      (d.elements.set (d.get_previous_index d.first_index) v).getD
        ((d.get_previous_index d.first_index + 0) % d.elements.length) default = v := by
    rw [Nat.add_zero, Nat.mod_eq_of_lt hHlt]
    refine getD_set_self _ v default ?_
    exact hHlt
  have hrest :
      (List.range d.element_count).map
        ((fun i => (d.elements.set (d.get_previous_index d.first_index) v).getD
          ((d.get_previous_index d.first_index + i) % d.elements.length) default) ∘ Nat.succ)
        = (List.range d.element_count).map
            (fun i => d.elements.getD ((d.first_index + i) % d.elements.length) default) := by
    refine List.map_congr_left (fun j hj => ?_)
    have hj2 : j < d.element_count := List.mem_range.mp hj
    have hidx : (d.get_previous_index d.first_index + Nat.succ j) % d.elements.length
        = (d.first_index + j) % d.elements.length := by
      rw [hH, Nat.mod_add_mod]
      have harith : d.first_index + (d.elements.length - 1) + Nat.succ j
          = d.first_index + j + d.elements.length := by omega
      rw [harith, Nat.add_mod_right]
    have hne : d.get_previous_index d.first_index
        ≠ (d.first_index + j) % d.elements.length := by
      rw [hH]
      have hcnt : d.element_count < d.elements.length := h
      exact mod_add_ne (by omega) (by omega) (by omega)
    simp only [Function.comp_apply, hidx]
    exact getD_set_ne _ v default hne
  rw [hzero, hrest]

lemma push_back_list_spec (vs : List α) : ∀ (d : CircularDeque α),
    d.element_count + vs.length ≤ d.capacity →
    (d.push_back_list vs).toList = d.toList ++ vs ∧
    (d.push_back_list vs).element_count = d.element_count + vs.length ∧
    (d.push_back_list vs).capacity = d.capacity := by
  induction vs with
  | nil => intro d _; simp [push_back_list]
  | cons v vs ih =>
    intro d h
    have hlt : d.element_count < d.capacity := by
      simp only [List.length_cons] at h; omega
    have hstep : d.push_back_list (v :: vs) = (d.push_back v).push_back_list vs := rfl
    have hpre : (d.push_back v).element_count + vs.length ≤ (d.push_back v).capacity := by
      rw [cd_count_push_back, cd_capacity_push_back]
      simp only [List.length_cons] at h; omega
    obtain ⟨h1, h2, h3⟩ := ih (d.push_back v) hpre
    refine ⟨?_, ?_, ?_⟩
    · rw [hstep, h1, cd_toList_push_back d v hlt, List.append_assoc]
      rfl
    · rw [hstep, h2, cd_count_push_back]
      simp [List.length_cons]; omega
    · rw [hstep, h3, cd_capacity_push_back]

lemma push_front_list_spec (vs : List α) : ∀ (d : CircularDeque α),
    d.element_count + vs.length ≤ d.capacity →
    (d.push_front_list vs).toList = vs.reverse ++ d.toList ∧
    (d.push_front_list vs).element_count = d.element_count + vs.length ∧
    (d.push_front_list vs).capacity = d.capacity := by
  induction vs with
  | nil => intro d _; simp [push_front_list]
  | cons v vs ih =>
    intro d h
    have hlt : d.element_count < d.capacity := by
      simp only [List.length_cons] at h; omega
    have hstep : d.push_front_list (v :: vs) = (d.push_front v).push_front_list vs := rfl
    have hpre : (d.push_front v).element_count + vs.length ≤ (d.push_front v).capacity := by
      rw [cd_count_push_front, cd_capacity_push_front]
      simp only [List.length_cons] at h; omega
    obtain ⟨h1, h2, h3⟩ := ih (d.push_front v) hpre
    refine ⟨?_, ?_, ?_⟩
    · rw [hstep, h1, cd_toList_push_front d v hlt]
      simp [List.append_assoc]
    · rw [hstep, h2, cd_count_push_front]
      simp [List.length_cons]; omega
    · rw [hstep, h3, cd_capacity_push_front]

lemma mkEmpty_toList (N : Nat) : (mkEmpty α N).toList = [] := rfl

lemma mkEmpty_capacity (N : Nat) : (mkEmpty α N).capacity = N := by
  simp [mkEmpty, capacity]

end CircularDeque

namespace Deque

variable {α : Type} [Inhabited α]

lemma capacity_push_back (d : Deque α) (v : α) :
    (d.push_back v).capacity = d.capacity := by
  simp [push_back, capacity]

lemma count_push_back (d : Deque α) (v : α) :
    (d.push_back v).element_count = d.element_count + 1 := rfl

lemma mkEmpty_capacity_linear (N : Nat) : (mkEmpty α N).capacity = N := by
  simp [mkEmpty, capacity]

lemma toList_push_back (d : Deque α) (v : α)
    (h : d.element_count < d.capacity) :
    (d.push_back v).toList = d.toList ++ [v] := by
  simp only [toList, push_back, List.range_succ, List.map_append, List.map_cons,
    List.map_nil]
  have hlast : (d.elements.set d.element_count v).getD d.element_count default = v :=
    getD_set_self _ v default h
  have hrest :
      (List.range d.element_count).map
        (fun i => (d.elements.set d.element_count v).getD i default)
        = (List.range d.element_count).map (fun i => d.elements.getD i default) := by
    refine List.map_congr_left (fun i hi => ?_)
    have hi2 : i < d.element_count := List.mem_range.mp hi
    exact getD_set_ne _ v default (Nat.ne_of_gt hi2)
  rw [hlast, hrest]

lemma push_front_shift_length (xs : List α) : ∀ k,
    (push_front_shift xs k).length = xs.length := by
  intro k
  induction k generalizing xs with
  | zero => rfl
  | succ m ih =>
    rw [push_front_shift, ih, List.length_set]

lemma pop_front_shift_succ (xs : List α) (n : Nat) :
    pop_front_shift xs (n + 1)
      = (pop_front_shift xs n).set n ((pop_front_shift xs n).getD (n + 1) default) := by
  simp [pop_front_shift, List.range_succ, List.foldl_append]

lemma pop_front_shift_length (xs : List α) (count : Nat) :
    (pop_front_shift xs count).length = xs.length := by
  induction count with
  | zero => rfl
  | succ n ih => rw [pop_front_shift_succ, List.length_set, ih]

lemma pop_front_shift_getD (xs : List α) (count : Nat) (hc : count ≤ xs.length) :
    ∀ j, (pop_front_shift xs count).getD j default
      = if j < count then xs.getD (j + 1) default else xs.getD j default := by
  induction count with
  | zero => intro j; simp [pop_front_shift]
  | succ n ih =>
    intro j
    have hn : n ≤ xs.length := Nat.le_of_succ_le hc
    rw [pop_front_shift_succ]
    rcases Nat.lt_trichotomy j n with hj | hj | hj
    · rw [getD_set_ne _ _ default (Nat.ne_of_gt hj), ih hn j, if_pos hj,
        if_pos (Nat.lt_succ_of_lt hj)]
    · subst hj
      have hjlen : j < (pop_front_shift xs j).length := by
        rw [pop_front_shift_length]; omega
      rw [getD_set_self _ _ default hjlen, ih hn (j + 1), if_neg (by omega),
        if_pos (Nat.lt_succ_self j)]
    · rw [getD_set_ne _ _ default (Nat.ne_of_lt hj), ih hn j, if_neg (by omega),
        if_neg (by omega)]

lemma toList_pop_front (d : Deque α) (h : d.element_count ≤ d.capacity) :
    d.pop_front.toList = d.toList.drop 1 := by
  cases hc : d.element_count with
  | zero =>
    simp [pop_front, toList, hc]
  | succ m =>
    have hgetD := pop_front_shift_getD d.elements d.element_count h
    simp only [pop_front, toList, hc, Nat.succ_sub_one, List.range_succ_eq_map,
      List.map_cons, List.drop_succ_cons, List.drop_zero, List.map_map]
    refine List.map_congr_left (fun j hj => ?_)
    have hj2 : j < m := List.mem_range.mp hj
    have := hgetD j
    rw [hc] at this
    simp only [Function.comp_apply]
    rw [this, if_pos (by omega)]

lemma count_pop_front (d : Deque α) :
    d.pop_front.element_count = d.element_count - 1 := rfl

lemma capacity_pop_front (d : Deque α) :
    d.pop_front.capacity = d.capacity := by
  simp [pop_front, capacity, pop_front_shift_length]

lemma capacity_push_front (d : Deque α) (v : α) :
    (d.push_front v).capacity = d.capacity := by
  simp [push_front, capacity, push_front_shift_length]

lemma capacity_pop_back (d : Deque α) :
    d.pop_back.capacity = d.capacity := rfl

lemma toList_pop_back (d : Deque α) :
    d.pop_back.toList = d.toList.dropLast := by
  cases hc : d.element_count with
  | zero => simp [pop_back, toList, hc]
  | succ m =>
    simp only [pop_back, toList, hc, Nat.succ_sub_one, List.range_succ, List.map_append,
      List.map_cons, List.map_nil]
    rw [List.dropLast_append_of_ne_nil _ (by simp)]
    simp

end Deque

namespace Deque

variable {α : Type} [Inhabited α]

lemma step_inv {d d2 : Deque α} {op : DequeOp α}
    (hinv : d.element_count ≤ d.capacity) (h : d.step op = some d2) :
    d2.element_count ≤ d2.capacity ∧ d2.capacity = d.capacity := by
  cases op with
  | pushBack v =>
    by_cases hc : d.size < d.max_size
    · rw [step, if_pos hc] at h
      cases h
      rw [count_push_back, capacity_push_back]
      exact ⟨hc, rfl⟩
    · rw [step, if_neg hc] at h
      cases h
  | pushFront v =>
    by_cases hc : d.size < d.max_size
    · rw [step, if_pos hc] at h
      cases h
      rw [capacity_push_front]
      exact ⟨hc, rfl⟩
    · rw [step, if_neg hc] at h
      cases h
  | popBack =>
    by_cases hc : 0 < d.size
    · rw [step, if_pos hc] at h
      cases h
      exact ⟨Nat.le_trans (Nat.sub_le _ _) hinv, rfl⟩
    · rw [step, if_neg hc] at h
      cases h
  | popFront =>
    by_cases hc : 0 < d.size
    · rw [step, if_pos hc] at h
      cases h
      rw [count_pop_front, capacity_pop_front]
      exact ⟨Nat.le_trans (Nat.sub_le _ _) hinv, rfl⟩
    · rw [step, if_neg hc] at h
      cases h

lemma run_inv : ∀ (ops : List (DequeOp α)) (d s : Deque α),
    d.element_count ≤ d.capacity → d.run ops = some s →
    s.element_count ≤ s.capacity ∧ s.capacity = d.capacity := by
  intro ops
  induction ops with
  | nil =>
    intro d s hinv h
    cases h
    exact ⟨hinv, rfl⟩
  | cons op ops ih =>
    intro d s hinv h
    rw [run] at h
    cases hstep : d.step op with
    | none => rw [hstep] at h; cases h
    | some d2 =>
      rw [hstep] at h
      obtain ⟨h1, h2⟩ := step_inv hinv hstep
      obtain ⟨g1, g2⟩ := ih d2 s h1 h
      exact ⟨g1, g2.trans h2⟩

end Deque

namespace CircularDeque

variable {α : Type} [Inhabited α]

lemma fst_push_back (d : CircularDeque α) (v : α) :
    (d.push_back v).first_index = d.first_index := rfl

lemma cd_capacity_pop_back (d : CircularDeque α) :
    d.pop_back.capacity = d.capacity := rfl

lemma cd_capacity_pop_front (d : CircularDeque α) :
    d.pop_front.capacity = d.capacity := rfl

lemma cd_step_inv {d d2 : CircularDeque α} {op : DequeOp α}
    (hinv : d.element_count ≤ d.capacity ∧ (0 < d.capacity → d.first_index < d.capacity))
    (h : d.step op = some d2) :
    (d2.element_count ≤ d2.capacity ∧ (0 < d2.capacity → d2.first_index < d2.capacity))
      ∧ d2.capacity = d.capacity := by
  cases op with
  | pushBack v =>
    by_cases hc : d.size < d.max_size
    · rw [step, if_pos hc] at h
      cases h
      rw [cd_count_push_back, cd_capacity_push_back, fst_push_back]
      exact ⟨⟨hc, hinv.2⟩, rfl⟩
    · rw [step, if_neg hc] at h
      cases h
  | pushFront v =>
    by_cases hc : d.size < d.max_size
    · rw [step, if_pos hc] at h
      cases h
      rw [cd_capacity_push_front]
      have hcap : 0 < d.capacity := Nat.lt_of_le_of_lt (Nat.zero_le _) hc
      refine ⟨⟨hc, fun _ => ?_⟩, rfl⟩
      show d.get_previous_index d.first_index < d.capacity
      exact Nat.mod_lt _ hcap
    · rw [step, if_neg hc] at h
      cases h
  | popBack =>
    by_cases hc : 0 < d.size
    · rw [step, if_pos hc] at h
      cases h
      rw [cd_capacity_pop_back]
      exact ⟨⟨Nat.le_trans (Nat.sub_le _ _) hinv.1, hinv.2⟩, rfl⟩
    · rw [step, if_neg hc] at h
      cases h
  | popFront =>
    by_cases hc : 0 < d.size
    · rw [step, if_pos hc] at h
      cases h
      rw [cd_capacity_pop_front]
      have hcap : 0 < d.capacity := Nat.lt_of_lt_of_le hc hinv.1
      refine ⟨⟨Nat.le_trans (Nat.sub_le _ _) hinv.1, fun _ => ?_⟩, rfl⟩
      show (d.first_index + 1) % d.capacity < d.capacity
      exact Nat.mod_lt _ hcap
    · rw [step, if_neg hc] at h
      cases h

lemma cd_run_inv : ∀ (ops : List (DequeOp α)) (d s : CircularDeque α),
    d.element_count ≤ d.capacity ∧ (0 < d.capacity → d.first_index < d.capacity) →
    d.run ops = some s →
    (s.element_count ≤ s.capacity ∧ (0 < s.capacity → s.first_index < s.capacity))
      ∧ s.capacity = d.capacity := by
  intro ops
  induction ops with
  | nil =>
    intro d s hinv h
    cases h
    exact ⟨hinv, rfl⟩
  | cons op ops ih =>
    intro d s hinv h
    rw [run] at h
    cases hstep : d.step op with
    | none => rw [hstep] at h; cases h
    | some d2 =>
      rw [hstep] at h
      obtain ⟨h1, h2⟩ := cd_step_inv hinv hstep
      obtain ⟨g1, g2⟩ := ih d2 s h1 h
      exact ⟨g1, g2.trans h2⟩

end CircularDeque

namespace Stack

variable {α : Type} [Inhabited α]

lemma stack_push_pop_observable (s : Stack α) (v : α) :
    ((s.push v).pop).container.toList = s.container.toList ∧
    ((s.push v).pop).container.element_count = s.container.element_count := by
  constructor
  · show (Deque.toList
      ⟨s.container.elements.set s.container.element_count v, s.container.element_count + 1 - 1⟩)
      = s.container.toList
    simp only [Deque.toList, Nat.add_sub_cancel]
    refine List.map_congr_left (fun i hi => ?_)
    have hi2 : i < s.container.element_count := List.mem_range.mp hi
    exact getD_set_ne _ v default (Nat.ne_of_gt hi2)
  · rfl

end Stack

namespace Queue

variable {α : Type} [Inhabited α]

lemma queue_push_pop_observable (q : Queue α) (v : α)
    (h : q.container.element_count < q.container.capacity) :
    ((q.push v).pop).container.toList = (q.container.toList ++ [v]).drop 1 ∧
    ((q.push v).pop).container.element_count = q.container.element_count := by
  have hp : (q.container.push_back v).element_count ≤ (q.container.push_back v).capacity := by
    rw [Deque.count_push_back, Deque.capacity_push_back]
    exact h
  constructor
  · show ((q.container.push_back v).pop_front).toList = (q.container.toList ++ [v]).drop 1
    rw [Deque.toList_pop_front _ hp, Deque.toList_push_back _ _ h]
  · show (q.container.push_back v).pop_front.element_count = q.container.element_count
    rw [Deque.count_pop_front, Deque.count_push_back]
    omega

end Queue

end containers

namespace eeprom

lemma update_byte_at (mem : EepromState) (addr b : Nat) :
    (eeprom_update_byte mem addr b).1 addr = b := by
  unfold eeprom_update_byte
  split
  · assumption
  · simp [Function.update]

lemma update_byte_other (mem : EepromState) (addr b a : Nat) (h : a ≠ addr) :
    (eeprom_update_byte mem addr b).1 a = mem a := by
  unfold eeprom_update_byte
  split
  · rfl
  · simp [Function.update, h]

lemma update_block_below (src : List Nat) : ∀ (mem : EepromState) (addr a : Nat),
    a < addr → (eeprom_update_block mem addr src).1 a = mem a := by
  induction src with
  | nil => intro mem addr a _; rfl
  | cons b rest ih =>
    intro mem addr a ha
    show (eeprom_update_block (eeprom_update_byte mem addr b).1 (addr + 1) rest).1 a = mem a
    rw [ih _ (addr + 1) a (by omega)]
    exact update_byte_other mem addr b a (by omega)

lemma read_block_succ (mem : EepromState) (addr n : Nat) :
    eeprom_read_block mem addr (n + 1)
      = mem addr :: eeprom_read_block mem (addr + 1) n := by
  simp only [eeprom_read_block, List.range_succ_eq_map, List.map_cons, List.map_map,
    Nat.add_zero]
  congr 1
  refine List.map_congr_left (fun i _ => ?_)
  simp only [Function.comp_apply]
  congr 1
  omega

lemma read_after_update_block (src : List Nat) : ∀ (mem : EepromState) (addr : Nat),
    eeprom_read_block (eeprom_update_block mem addr src).1 addr src.length = src := by
  induction src with
  | nil => intro mem addr; rfl
  | cons b rest ih =>
    intro mem addr
    have hblk : eeprom_update_block mem addr (b :: rest)
        = ((eeprom_update_block (eeprom_update_byte mem addr b).1 (addr + 1) rest).1,
           (eeprom_update_byte mem addr b).2
             + (eeprom_update_block (eeprom_update_byte mem addr b).1 (addr + 1) rest).2) := rfl
    rw [List.length_cons, hblk, read_block_succ]
    congr 1
    · rw [update_block_below rest _ (addr + 1) addr (by omega)]
      exact update_byte_at mem addr b
    · exact ih (eeprom_update_byte mem addr b).1 (addr + 1)

lemma update_block_skip (src : List Nat) : ∀ (mem : EepromState) (addr : Nat),
    eeprom_read_block mem addr src.length = src →
    (eeprom_update_block mem addr src).2 = 0 ∧ (eeprom_update_block mem addr src).1 = mem := by
  induction src with
  | nil => intro mem addr _; exact ⟨rfl, rfl⟩
  | cons b rest ih =>
    intro mem addr h
    rw [List.length_cons, read_block_succ] at h
    have hb : mem addr = b := (List.cons.injEq ..).mp h |>.1
    have hrest : eeprom_read_block mem (addr + 1) rest.length = rest :=
      (List.cons.injEq ..).mp h |>.2
    have hbyte : eeprom_update_byte mem addr b = (mem, 0) := by
      unfold eeprom_update_byte
      rw [if_pos hb]
    have hblk : eeprom_update_block mem addr (b :: rest)
        = ((eeprom_update_block (eeprom_update_byte mem addr b).1 (addr + 1) rest).1,
           (eeprom_update_byte mem addr b).2
             + (eeprom_update_block (eeprom_update_byte mem addr b).1 (addr + 1) rest).2) := rfl
    obtain ⟨w0, m0⟩ := ih mem (addr + 1) hrest
    rw [hblk, hbyte]
    exact ⟨by simpa using w0, by simpa using m0⟩

end eeprom

/-! ### Claim theorems -/

/-- C1: for every `CircularDeque<T, N>` starting empty, pushing the elements
of `bs` at the back and then the elements of `fs` at the front (with
`bs.length + fs.length ≤ N`) makes front-to-back iteration yield the
front-inserted elements in reverse insertion order followed by the
back-inserted elements in insertion order, and `size()` is the total number
pushed.  The S1 scenario is the instance `bs = "world"`-chars,
`fs = " ollleh"`-chars at `N = 16` (see the witness). -/
theorem claim_C1_mixed_end_insertion (α : Type) [Inhabited α] (N : Nat)
    (bs fs : List α) (h : bs.length + fs.length ≤ N) :
    (((containers.CircularDeque.mkEmpty α N).push_back_list bs).push_front_list fs).toList
      = fs.reverse ++ bs ∧
    (((containers.CircularDeque.mkEmpty α N).push_back_list bs).push_front_list fs).size
      = bs.length + fs.length := by
  have hcap : (containers.CircularDeque.mkEmpty α N).capacity = N :=
    containers.CircularDeque.mkEmpty_capacity N
  have hpre1 : (containers.CircularDeque.mkEmpty α N).element_count + bs.length
      ≤ (containers.CircularDeque.mkEmpty α N).capacity := by
    rw [hcap]
    show 0 + bs.length ≤ N
    omega
  obtain ⟨h1, h2, h3⟩ := containers.CircularDeque.push_back_list_spec bs _ hpre1
  have hpre2 :
      ((containers.CircularDeque.mkEmpty α N).push_back_list bs).element_count + fs.length
      ≤ ((containers.CircularDeque.mkEmpty α N).push_back_list bs).capacity := by
    rw [h2, h3, hcap]
    show (containers.CircularDeque.mkEmpty α N).element_count + bs.length + fs.length ≤ N
    show 0 + bs.length + fs.length ≤ N
    omega
  obtain ⟨g1, g2, g3⟩ := containers.CircularDeque.push_front_list_spec fs _ hpre2
  constructor
  · rw [g1, h1, containers.CircularDeque.mkEmpty_toList]
    simp
  · show (((containers.CircularDeque.mkEmpty α N).push_back_list bs).push_front_list
        fs).element_count = bs.length + fs.length
    rw [g2, h2]
    show 0 + bs.length + fs.length = bs.length + fs.length
    omega

/-- C1 witness: the S1 scenario on `CircularDeque<char, 16>` — five
`push_back` of `w o r l d` then six `push_front` of `_ o l l e h` yield the
characters of "hello world" front-to-back and `size() = 11`. -/
theorem claim_C1_witness :
    (((containers.CircularDeque.mkEmpty Char 16).push_back_list
        ['w', 'o', 'r', 'l', 'd']).push_front_list
        [' ', 'o', 'l', 'l', 'e', 'h']).toList
      = ['h', 'e', 'l', 'l', 'o', ' ', 'w', 'o', 'r', 'l', 'd'] ∧
    (((containers.CircularDeque.mkEmpty Char 16).push_back_list
        ['w', 'o', 'r', 'l', 'd']).push_front_list
        [' ', 'o', 'l', 'l', 'e', 'h']).size = 11 := by
  obtain ⟨h1, h2⟩ := claim_C1_mixed_end_insertion Char 16 ['w', 'o', 'r', 'l', 'd']
    [' ', 'o', 'l', 'l', 'e', 'h'] (by decide)
  constructor
  · rw [h1]
    decide
  · rw [h2]
    decide

/-- C2: writing a trivially copyable value (as its byte list `v`) to
persistent memory through `eeprom::writeEeprom`, or assigning through
`EepromReference::operator =`, then reading the object back returns `v`;
and when every stored byte already equals the corresponding byte of `v`,
the write path performs zero underlying byte-writes.  (The
`eeprom_update_*` primitives live in `<avr/eeprom.h>`; they are modelled
from the spec, §4.2.) -/
theorem claim_C2_persistent_roundtrip (mem : eeprom.EepromState) (addr : Nat)
    (v : List Nat) :
    eeprom.readEeprom (eeprom.writeEeprom mem addr v).1 addr v.length = v ∧
    eeprom.erefRead (eeprom.erefAssign mem addr v).1 addr v.length = v ∧
    (eeprom.readEeprom mem addr v.length = v →
      (eeprom.writeEeprom mem addr v).2 = 0 ∧ (eeprom.erefAssign mem addr v).2 = 0 ∧
      (eeprom.writeEeprom mem addr v).1 = mem) := by
  refine ⟨eeprom.read_after_update_block v mem addr,
    eeprom.read_after_update_block v mem addr, fun h => ?_⟩
  obtain ⟨w0, m0⟩ := eeprom.update_block_skip v mem addr h
  exact ⟨w0, w0, m0⟩

/-- C2 witness: the S3/S5 instance — writing byte `72` (`'H'`) at
persistent address `900` over an all-zero store reads back `[72]`, and
re-writing `72` over a store already holding `72` performs zero
byte-writes. -/
theorem claim_C2_witness :
    eeprom.readEeprom (eeprom.writeEeprom (fun _ => 0) 900 [72]).1 900 1 = [72] ∧
    (eeprom.writeEeprom (fun _ => 72) 900 [72]).2 = 0 := by
  refine ⟨(claim_C2_persistent_roundtrip (fun _ => 0) 900 [72]).1, ?_⟩
  exact ((claim_C2_persistent_roundtrip (fun _ => 72) 900 [72]).2.2 rfl).1

/-- C3: evaluation of the region-array observers at a failing input.
`size()` and `max_size()` do return `N`, but `empty()` as written returns
`capacity > 0`: it yields `true` for the non-empty 4-element arrays and
`false` for the 0-element arrays — the inverse of the claimed
`empty() ↔ N = 0` (known defect 1 of §9 of the specification; the code also
contradicts its own doc comment, which promises `false` when `size` is not
`0`). -/
theorem claim_C3_empty_inverted :
    ((⟨100⟩ : progmem.ProgmemArray Char 4).size = 4 ∧
     (⟨100⟩ : progmem.ProgmemArray Char 4).max_size = 4) ∧
    ((⟨200⟩ : eeprom.EepromArray Char 4).size = 4 ∧
     (⟨200⟩ : eeprom.EepromArray Char 4).max_size = 4) ∧
    (⟨100⟩ : progmem.ProgmemArray Char 4).isEmptyPA = true ∧
    (⟨200⟩ : eeprom.EepromArray Char 4).isEmptyEA = true ∧
    (⟨100⟩ : progmem.ProgmemArray Char 0).isEmptyPA = false ∧
    (⟨200⟩ : eeprom.EepromArray Char 0).isEmptyEA = false ∧
    (4 : Nat) ≠ 0 := by
  decide

/-- C4 counterexample: a `Queue` wrapping a `Deque<char, 4>` holding
`[a, b]` (reachable, not full: `2 < 4`).  `push('c')` forwards to
`push_back` and `pop()` forwards to `pop_front`, so the wrapped container
afterwards holds `[b, c]`, not the original `[a, b]` — `push; pop` is not
observably the identity for the FIFO adapter. -/
theorem claim_C4_counterexample :
    (⟨⟨['a', 'b', 'c', 'd'], 2⟩⟩ : containers.Queue Char).container.element_count
      < (⟨⟨['a', 'b', 'c', 'd'], 2⟩⟩ : containers.Queue Char).container.capacity ∧
    (⟨⟨['a', 'b', 'c', 'd'], 2⟩⟩ : containers.Queue Char).container.toList = ['a', 'b'] ∧
    (((⟨⟨['a', 'b', 'c', 'd'], 2⟩⟩ : containers.Queue Char).push 'c').pop).container.toList
      = ['b', 'c'] ∧
    (((⟨⟨['a', 'b', 'c', 'd'], 2⟩⟩ : containers.Queue Char).push 'c').pop).container.toList
      ≠ (⟨⟨['a', 'b', 'c', 'd'], 2⟩⟩ : containers.Queue Char).container.toList := by
  decide

/-- C4 (amended): for a `Stack` adapter in a non-full state, `push(v);
pop()` leaves the wrapped container observably identical (same size, same
element sequence).  For a `Queue` adapter in a non-full state it preserves
the size but leaves the sequence `(old ++ [v]).drop 1` — the old front
removed and `v` appended — which coincides with the original sequence when
the wrapped container was empty. -/
theorem claim_C4_adapter_push_pop (α : Type) [Inhabited α] (v : α) :
    (∀ s : containers.Stack α,
      s.container.element_count < s.container.capacity →
      ((s.push v).pop).container.toList = s.container.toList ∧
      ((s.push v).pop).container.element_count = s.container.element_count) ∧
    (∀ q : containers.Queue α,
      q.container.element_count < q.container.capacity →
      ((q.push v).pop).container.element_count = q.container.element_count ∧
      ((q.push v).pop).container.toList = (q.container.toList ++ [v]).drop 1 ∧
      (q.container.element_count = 0 →
        ((q.push v).pop).container.toList = q.container.toList)) := by
  constructor
  · intro s _
    exact containers.Stack.stack_push_pop_observable s v
  · intro q h
    obtain ⟨h1, h2⟩ := containers.Queue.queue_push_pop_observable q v h
    refine ⟨h2, h1, fun hc => ?_⟩
    have hnil : q.container.toList = [] := by
      simp [containers.Deque.toList, hc]
    rw [h1, hnil]
    rfl

/-- C4 witness: on a non-full `Stack` over `[a]` and an empty `Queue`,
`push(z)` then `pop()` restores the wrapped container's observable
sequence. -/
theorem claim_C4_witness :
    (((⟨⟨['a', 'b'], 1⟩⟩ : containers.Stack Char).push 'z').pop).container.toList
      = (⟨⟨['a', 'b'], 1⟩⟩ : containers.Stack Char).container.toList ∧
    (((⟨⟨['p', 'q'], 0⟩⟩ : containers.Queue Char).push 'z').pop).container.toList
      = (⟨⟨['p', 'q'], 0⟩⟩ : containers.Queue Char).container.toList :=
  ⟨((claim_C4_adapter_push_pop Char 'z').1 ⟨⟨['a', 'b'], 1⟩⟩ (by decide)).1,
   (((claim_C4_adapter_push_pop Char 'z').2 ⟨⟨['p', 'q'], 0⟩⟩ (by decide)).2.2 (by decide))⟩

/-- C5: evaluation of `swap` at a failing input.  Both `Deque::swap` and
`CircularDeque::swap` exchange only the backing arrays
(`swap(this->elements, other.elements)`) and leave `element_count` (and
`first_index`) untouched, so after `a.swap(b)` with `a = [x]` (size 1) and
`b = []` (size 0) the second deque is still empty instead of holding `[x]`:
the observable contents are not exchanged. -/
theorem claim_C5_swap_eval :
    (containers.Deque.swap (⟨['x', 'y'], 1⟩ : containers.Deque Char) ⟨['p', 'q'], 0⟩).1.size
      = 1 ∧
    (containers.Deque.swap (⟨['x', 'y'], 1⟩ : containers.Deque Char) ⟨['p', 'q'], 0⟩).2.size
      = 0 ∧
    (containers.Deque.swap (⟨['x', 'y'], 1⟩ : containers.Deque Char) ⟨['p', 'q'], 0⟩).2.toList
      = [] ∧
    (⟨['x', 'y'], 1⟩ : containers.Deque Char).toList = ['x'] ∧
    (containers.Deque.swap (⟨['x', 'y'], 1⟩ : containers.Deque Char) ⟨['p', 'q'], 0⟩).2.toList
      ≠ (⟨['x', 'y'], 1⟩ : containers.Deque Char).toList ∧
    (containers.CircularDeque.swap (⟨['x', 'y'], 1, 0⟩ : containers.CircularDeque Char)
        ⟨['p', 'q'], 0, 0⟩).2.toList = [] ∧
    (containers.CircularDeque.swap (⟨['x', 'y'], 1, 0⟩ : containers.CircularDeque Char)
        ⟨['p', 'q'], 0, 0⟩).2.toList
      ≠ (⟨['x', 'y'], 1, 0⟩ : containers.CircularDeque Char).toList := by
  decide

/-- C6: evaluation of `Deque::pop_front` at a failing input.  The
element-moving loop runs `index` from `0` to `element_count - 1` and reads
`elements[index + 1]` each iteration, so on a FULL deque
(`element_count = capacity = 2`) its final iteration reads index `2` — one
past the end of the 2-element backing array, not within bounds (known
defect 5 of §9: the intended bound is `index < count - 1`).  The post-state
part of the claim does hold: the size drops by one and each remaining
element is the old successor. -/
theorem claim_C6_pop_front_oob :
    containers.Deque.pop_front_read_indices
        (⟨['a', 'b'], 2⟩ : containers.Deque Char).element_count = [1, 2] ∧
    (⟨['a', 'b'], 2⟩ : containers.Deque Char).capacity = 2 ∧
    2 ∈ containers.Deque.pop_front_read_indices
        (⟨['a', 'b'], 2⟩ : containers.Deque Char).element_count ∧
    ¬ ((2 : Nat) < (⟨['a', 'b'], 2⟩ : containers.Deque Char).capacity) ∧
    ((⟨['a', 'b'], 2⟩ : containers.Deque Char).pop_front).toList = ['b'] ∧
    ((⟨['a', 'b'], 2⟩ : containers.Deque Char).pop_front).element_count = 1 := by
  decide

/-- C7: evaluation of `CircularDeque::clear` at a failing input.  The state
`elements = [a, b, c, _], count = 2, head = 1` is reachable (three
`push_back` then one `pop_front` from empty).  Its live elements occupy
physical slots `[1, 2]` (in logical order), but the destruction loop walks
the PHYSICAL index range `[begin_index, end_index)` and destroys
`elements[adjust_index(index)]`, re-adding `head`: it destroys slots
`[2, 3]` — one live element is never destroyed and a dead slot is
destroyed instead (known defect 6 of §9).  The reset part of the claim
holds: afterwards `count = 0` and `head = 0`. -/
theorem claim_C7_clear_wrong_slots :
    (containers.CircularDeque.mkEmpty Char 4).run
        [containers.DequeOp.pushBack 'a', containers.DequeOp.pushBack 'b',
         containers.DequeOp.pushBack 'c', containers.DequeOp.popFront]
      = some ⟨['a', 'b', 'c', 'A'], 2, 1⟩ ∧
    (⟨['a', 'b', 'c', 'A'], 2, 1⟩ : containers.CircularDeque Char).live_slots = [1, 2] ∧
    (⟨['a', 'b', 'c', 'A'], 2, 1⟩ : containers.CircularDeque Char).clear_destroyed_slots
      = [2, 3] ∧
    (⟨['a', 'b', 'c', 'A'], 2, 1⟩ : containers.CircularDeque Char).clear_destroyed_slots
      ≠ (⟨['a', 'b', 'c', 'A'], 2, 1⟩ : containers.CircularDeque Char).live_slots ∧
    (⟨['a', 'b', 'c', 'A'], 2, 1⟩ : containers.CircularDeque Char).clear.element_count = 0 ∧
    (⟨['a', 'b', 'c', 'A'], 2, 1⟩ : containers.CircularDeque Char).clear.first_index = 0 := by
  decide

/-- C8: starting from an empty deque of capacity `N`, after any sequence of
operations each performed under its documented precondition (push only when
`size() < N`, pop only when `size() > 0`), the invariant
`0 ≤ size() ≤ N` holds for both `Deque<T, N>` and `CircularDeque<T, N>`,
and `first_index < N` whenever the circular deque is non-empty. -/
theorem claim_C8_size_invariant (α : Type) [Inhabited α] (N : Nat)
    (ops : List (containers.DequeOp α))
    (dres : containers.Deque α) (cres : containers.CircularDeque α)
    (hd : (containers.Deque.mkEmpty α N).run ops = some dres)
    (hc : (containers.CircularDeque.mkEmpty α N).run ops = some cres) :
    dres.size ≤ N ∧ cres.size ≤ N ∧ (0 < cres.size → cres.first_index < N) := by
  obtain ⟨hD1, hD2⟩ := containers.Deque.run_inv ops _ dres (Nat.zero_le _) hd
  obtain ⟨⟨hC1, hC2⟩, hC3⟩ := containers.CircularDeque.cd_run_inv ops _ cres
    ⟨Nat.zero_le _, fun h1 => h1⟩ hc
  rw [containers.Deque.mkEmpty_capacity_linear] at hD2
  rw [containers.CircularDeque.mkEmpty_capacity] at hC3
  refine ⟨?_, ?_, ?_⟩
  · show dres.element_count ≤ N
    omega
  · show cres.element_count ≤ N
    omega
  · intro hpos
    have : 0 < cres.capacity := Nat.lt_of_lt_of_le hpos hC1
    have := hC2 this
    omega

/-- C8 witness: a concrete well-formed operation sequence on capacity 2 —
`push_back a`, `push_front b`, `pop_back` — ends within bounds on both
deque implementations, with the circular head in range. -/
theorem claim_C8_witness :
    (⟨['b', 'a'], 1⟩ : containers.Deque Char).size ≤ 2 ∧
    (⟨['a', 'b'], 1, 1⟩ : containers.CircularDeque Char).size ≤ 2 ∧
    (0 < (⟨['a', 'b'], 1, 1⟩ : containers.CircularDeque Char).size →
      (⟨['a', 'b'], 1, 1⟩ : containers.CircularDeque Char).first_index < 2) :=
  claim_C8_size_invariant Char 2
    [containers.DequeOp.pushBack 'a', containers.DequeOp.pushFront 'b',
     containers.DequeOp.popBack]
    ⟨['b', 'a'], 1⟩ ⟨['a', 'b'], 1, 1⟩ (by decide) (by decide)

/-- C9 counterexample: with `CONTAINER_SAFETY` defined, `Deque::back()` on
an empty deque is NOT a defined silent no-op: `front()`/`back()` carry no
safety check at all, and on an empty `Deque<char, 4>` the returned
reference is `elements[element_count - 1]`, whose index underflows in
16-bit `size_t` to `65535` — an access outside the 4-element backing array
(undefined behaviour), contradicting the claim that every listed operation
becomes a silent no-op under the flag. -/
theorem claim_C9_counterexample :
    (⟨['x', 'y', 'z', 'w'], 0⟩ : containers.Deque Char).get_last_index = 65535 ∧
    ¬ ((⟨['x', 'y', 'z', 'w'], 0⟩ : containers.Deque Char).get_last_index
        < (⟨['x', 'y', 'z', 'w'], 0⟩ : containers.Deque Char).capacity) ∧
    (⟨['x', 'y', 'z', 'w'], 0⟩ : containers.Deque Char).backSlot = none := by
  refine ⟨by decide, by decide, ?_⟩
  show (['x', 'y', 'z', 'w'] : List Char).get?
      (⟨['x', 'y', 'z', 'w'], 0⟩ : containers.Deque Char).get_last_index = none
  have h : (⟨['x', 'y', 'z', 'w'], 0⟩ : containers.Deque Char).get_last_index = 65535 := by
    decide
  rw [h]
  exact List.get?_eq_none.mpr (by decide)

/-- C9 (amended): with `CONTAINER_SAFETY` defined, `push_back`,
`push_front` and the emplaces on a full deque, `pop_back`/`pop_front` on an
empty deque, and `erase` of the past-the-end iterator all return with the
container state unchanged and produce no diagnostic, on both deque
implementations.  `front()` and `back()`, however, carry no safety check:
on an empty linear deque `back()` still accesses index
`element_count - 1`, which wraps in `size_t` to `65535`, outside any
backing array of capacity at most 65535. -/
theorem claim_C9_safety_noop (α : Type) [Inhabited α] :
    (∀ (d : containers.Deque α) (v : α), d.size ≥ d.max_size →
      d.push_back_safe v = d ∧ d.push_front_safe v = d ∧
      d.emplace_back_safe v = d ∧ d.emplace_front_safe v = d) ∧
    (∀ d : containers.Deque α, d.element_count = 0 →
      d.pop_back_safe = d ∧ d.pop_front_safe = d) ∧
    (∀ (d : containers.Deque α) (p : Nat), p = d.element_count →
      d.erase_safe p = d) ∧
    (∀ (d : containers.CircularDeque α) (v : α), d.size ≥ d.max_size →
      d.push_back_safe v = d ∧ d.push_front_safe v = d ∧
      d.emplace_back_safe v = d ∧ d.emplace_front_safe v = d) ∧
    (∀ d : containers.CircularDeque α, d.element_count = 0 →
      d.pop_back_safe = d ∧ d.pop_front_safe = d) ∧
    (∀ (d : containers.CircularDeque α) (p : Nat), p = d.element_count →
      d.erase_safe p = d) ∧
    (∀ d : containers.Deque α, d.element_count = 0 → d.capacity ≤ 65535 →
      ¬ d.get_last_index < d.capacity ∧ d.backSlot = none) := by
  have hpred : sizeTPred 0 = 65535 := by decide
  refine ⟨?_, ?_, ?_, ?_, ?_, ?_, ?_⟩
  · intro d v h
    refine ⟨?_, ?_, ?_, ?_⟩ <;>
      simp only [containers.Deque.push_back_safe, containers.Deque.push_front_safe,
        containers.Deque.emplace_back_safe, containers.Deque.emplace_front_safe,
        if_pos h]
  · intro d h
    have hb : d.isEmptyD = true := by
      simp [containers.Deque.isEmptyD, h]
    constructor <;>
      simp only [containers.Deque.pop_back_safe, containers.Deque.pop_front_safe, hb,
        if_pos]
  · intro d p h
    by_cases hb : d.isEmptyD = true
    · simp only [containers.Deque.erase_safe, hb, if_pos]
    · simp only [containers.Deque.erase_safe, hb, if_neg, Bool.false_eq_true,
        not_false_eq_true, if_pos h]
  · intro d v h
    refine ⟨?_, ?_, ?_, ?_⟩ <;>
      simp only [containers.CircularDeque.push_back_safe,
        containers.CircularDeque.push_front_safe,
        containers.CircularDeque.emplace_back_safe,
        containers.CircularDeque.emplace_front_safe, if_pos h]
  · intro d h
    have hb : d.isEmptyCD = true := by
      simp [containers.CircularDeque.isEmptyCD, h]
    constructor <;>
      simp only [containers.CircularDeque.pop_back_safe,
        containers.CircularDeque.pop_front_safe, hb, if_pos]
  · intro d p h
    by_cases hb : d.isEmptyCD = true
    · simp only [containers.CircularDeque.erase_safe, hb, if_pos]
    · simp only [containers.CircularDeque.erase_safe, hb, if_neg, Bool.false_eq_true,
        not_false_eq_true, if_pos h]
  · intro d h hN
    have hidx : d.get_last_index = 65535 := by
      rw [containers.Deque.get_last_index, h, hpred]
    constructor
    · rw [hidx]
      omega
    · show d.elements.get? d.get_last_index = none
      rw [hidx]
      refine List.get?_eq_none.mpr ?_
      show d.capacity ≤ 65535
      exact hN

/-- C9 witness: on concrete capacity-2 deques, each guarded operation
(pushes and emplaces on full, pops on empty, erase at the end iterator, on
both implementations) returns the container unchanged, and `back()` on an
empty `Deque<char, 4>` accesses an out-of-range slot. -/
theorem claim_C9_witness :
    (⟨['x', 'y'], 2⟩ : containers.Deque Char).push_back_safe 'z' = ⟨['x', 'y'], 2⟩ ∧
    (⟨['x', 'y'], 2⟩ : containers.Deque Char).emplace_front_safe 'z' = ⟨['x', 'y'], 2⟩ ∧
    (⟨['x', 'y'], 0⟩ : containers.Deque Char).pop_front_safe = ⟨['x', 'y'], 0⟩ ∧
    (⟨['x', 'y'], 1⟩ : containers.Deque Char).erase_safe 1 = ⟨['x', 'y'], 1⟩ ∧
    (⟨['x', 'y'], 2, 0⟩ : containers.CircularDeque Char).push_front_safe 'z'
      = ⟨['x', 'y'], 2, 0⟩ ∧
    (⟨['x', 'y'], 2, 0⟩ : containers.CircularDeque Char).emplace_back_safe 'z'
      = ⟨['x', 'y'], 2, 0⟩ ∧
    (⟨['x', 'y'], 2, 0⟩ : containers.CircularDeque Char).emplace_front_safe 'z'
      = ⟨['x', 'y'], 2, 0⟩ ∧
    (⟨['x', 'y'], 0, 0⟩ : containers.CircularDeque Char).pop_back_safe
      = ⟨['x', 'y'], 0, 0⟩ ∧
    (⟨['x', 'y'], 1, 1⟩ : containers.CircularDeque Char).erase_safe 1
      = ⟨['x', 'y'], 1, 1⟩ ∧
    (⟨['a', 'b', 'c', 'd'], 0⟩ : containers.Deque Char).backSlot = none :=
  ⟨((claim_C9_safety_noop Char).1 ⟨['x', 'y'], 2⟩ 'z' (by decide)).1,
   ((claim_C9_safety_noop Char).1 ⟨['x', 'y'], 2⟩ 'z' (by decide)).2.2.2,
   ((claim_C9_safety_noop Char).2.1 ⟨['x', 'y'], 0⟩ (by decide)).2,
   (claim_C9_safety_noop Char).2.2.1 ⟨['x', 'y'], 1⟩ 1 (by decide),
   (((claim_C9_safety_noop Char).2.2.2.1 ⟨['x', 'y'], 2, 0⟩ 'z') (by decide)).2.1,
   (((claim_C9_safety_noop Char).2.2.2.1 ⟨['x', 'y'], 2, 0⟩ 'z') (by decide)).2.2.1,
   (((claim_C9_safety_noop Char).2.2.2.1 ⟨['x', 'y'], 2, 0⟩ 'z') (by decide)).2.2.2,
   ((claim_C9_safety_noop Char).2.2.2.2.1 ⟨['x', 'y'], 0, 0⟩ (by decide)).1,
   (claim_C9_safety_noop Char).2.2.2.2.2.1 ⟨['x', 'y'], 1, 1⟩ 1 (by decide),
   ((claim_C9_safety_noop Char).2.2.2.2.2.2 ⟨['a', 'b', 'c', 'd'], 0⟩ (by decide)
     (by decide)).2⟩

/-- C10: `CircularDeque::data()` always returns a pointer to physical slot
`0` of the backing array (`&elements[0]`), whatever `first_index` is; and
there is a reachable non-empty state — immediately after `push_front('h')`
on an empty `CircularDeque<char, 16>` — in which `first_index = 15 ≠ 0`, so
`*data()` is not the front element (`front()` reads slot `first_index`). -/
theorem claim_C10_data_not_front (d : containers.CircularDeque Char) :
    d.dataIndex = 0 ∧
    ((containers.CircularDeque.mkEmpty Char 16).push_front 'h').frontIndex = 15 ∧
    ((containers.CircularDeque.mkEmpty Char 16).push_front 'h').dataIndex = 0 ∧
    ((containers.CircularDeque.mkEmpty Char 16).push_front 'h').element_count = 1 ∧
    (15 : Nat) ≠ 0 := by
  exact ⟨rfl, by decide, rfl, by decide, by decide⟩

end ArduinoUtilities
